import Mathlib

/-!
Verification of the Job_Scheduler repository: a shallow embedding of the
CRON evaluator (`app/scheduler/cron_utils.py`), the dispatch core
(`app/scheduler/scheduler.py`), the execution core
(`app/executor/worker.py`) and the stats service
(`app/services/execution_service.py`), together with proofs and
refutations of the specification's claims about them.
-/

/-! ## Execution core: WorkerPool._execute_job (app/executor/worker.py)

The worker's retry loop is embedded as a pure function over an
environment `env : Nat → AttemptOutcome` giving, for each 1-based
attempt number, the outcome the network presents to that attempt.
-/

/-- Status column of a recorded execution row (`status` in
`JobExecution`): the worker writes either the string SUCCESS or the
string FAILED. -/
inductive ExecStatus where
  | success
  | failed
deriving DecidableEq, Repr

/-- One Execution row as `WorkerPool._record_execution` receives it:
the fields of `JobExecution` that the claims are about. -/
structure ExecutionRecord where
  status : ExecStatus
  httpStatus : Option Nat
  durationMs : Option Nat
  errorMessage : Option String
deriving DecidableEq, Repr

/-- Outcome of one outbound HTTP POST as the worker's `try` block
observes it: a completed HTTP response (status code, measured duration
in ms, response body text), a `requests.exceptions.Timeout`, another
`requests.exceptions.RequestException`, or any other exception. -/
inductive AttemptOutcome where
  | http (status : Nat) (durationMs : Nat) (body : String)
  | timeout
  | requestError (msg : String)
  | otherError (msg : String)
deriving DecidableEq, Repr

/-- The `last_error` string each failing branch of the worker loop
records: `HTTP status: body truncated to 200 chars` for a non-2xx
response, the fixed timeout message, or the stringified exception. -/
def outcomeError : AttemptOutcome → String
  | .http st _ body => "HTTP " ++ toString st ++ ": " ++ body.take 200
  | .timeout => "Request timeout"
  | .requestError msg => msg
  | .otherError msg => msg

/-- Whether an attempt outcome is a 2xx HTTP response, the worker's
success test `response.status_code >= 200 and response.status_code < 300`. -/
def isSuccessOutcome : AttemptOutcome → Bool
  | .http st _ _ => decide (200 ≤ st ∧ st < 300)
  | _ => false

/-- The worker's `while attempt <= self.max_retries` loop.
`remaining` is the number of loop iterations still permitted
(initially `max_retries + 1`), `attempt` the 1-based number of the next
attempt, `lastError` the `last_error` local. Returns the single
Execution row written when the attempt sequence terminates, paired with
the number of outbound POSTs performed. -/
def attemptLoop (env : Nat → AttemptOutcome) :
    Nat → Nat → Option String → ExecutionRecord × Nat
  | _, 0, lastError =>
    ({ status := .failed, httpStatus := none, durationMs := none,
       errorMessage := lastError }, 0)
  | attempt, remaining + 1, _lastError =>
    match env attempt with
    | .http st dur body =>
      if 200 ≤ st ∧ st < 300 then
        ({ status := .success, httpStatus := some st, durationMs := some dur,
           errorMessage := none }, 1)
      else
        let rest := attemptLoop env (attempt + 1) remaining
          (some (outcomeError (.http st dur body)))
        (rest.1, rest.2 + 1)
    | .timeout =>
        let rest := attemptLoop env (attempt + 1) remaining
          (some (outcomeError .timeout))
        (rest.1, rest.2 + 1)
    | .requestError msg =>
        let rest := attemptLoop env (attempt + 1) remaining
          (some (outcomeError (.requestError msg)))
        (rest.1, rest.2 + 1)
    | .otherError msg =>
        let rest := attemptLoop env (attempt + 1) remaining
          (some (outcomeError (.otherError msg)))
        (rest.1, rest.2 + 1)

/-- WorkerPool._execute_job for one firing: run the retry loop with
attempt budget `max_retries + 1`, starting at attempt 1 with no error
recorded yet. -/
def execute_job (env : Nat → AttemptOutcome) (maxRetries : Nat) :
    ExecutionRecord × Nat :=
  attemptLoop env 1 (maxRetries + 1) none

/-- Concrete environment: the receiver answers 500 to every attempt
(scenario S3 of the specification). -/
def env500 : Nat → AttemptOutcome :=
  fun _ => .http 500 0 "Internal Server Error"

/-- Concrete environment: the receiver answers 200 to every attempt. -/
def env200 : Nat → AttemptOutcome :=
  fun _ => .http 200 5 "ok"

/-- Concrete environment: 500 on the first attempt, 200 afterwards
(scenario S2 of the specification). -/
def envFlaky : Nat → AttemptOutcome :=
  fun n => if 2 ≤ n then .http 200 1 "ok" else .http 500 0 "err"

theorem attemptLoop_succ_of_success (env : Nat → AttemptOutcome)
    (a r : Nat) (e : Option String) (st dur : Nat) (body : String)
    (henv : env a = .http st dur body) (hst : 200 ≤ st ∧ st < 300) :
    attemptLoop env a (r + 1) e =
      ({ status := .success, httpStatus := some st, durationMs := some dur,
         errorMessage := none }, 1) := by
  simp [attemptLoop, henv, hst]

theorem attemptLoop_succ_of_fail (env : Nat → AttemptOutcome)
    (a r : Nat) (e : Option String)
    (h : isSuccessOutcome (env a) = false) :
    attemptLoop env a (r + 1) e =
      ((attemptLoop env (a + 1) r (some (outcomeError (env a)))).1,
       (attemptLoop env (a + 1) r (some (outcomeError (env a)))).2 + 1) := by
  cases henv : env a with
  | http st dur body =>
    rw [henv] at h
    simp only [isSuccessOutcome, decide_eq_false_iff_not] at h
    simp [attemptLoop, henv, h, outcomeError]
  | timeout => simp [attemptLoop, henv, outcomeError]
  | requestError msg => simp [attemptLoop, henv, outcomeError]
  | otherError msg => simp [attemptLoop, henv, outcomeError]

theorem attemptLoop_count_le (env : Nat → AttemptOutcome) :
    ∀ r a e, (attemptLoop env a r e).2 ≤ r := by
  intro r
  induction r with
  | zero => intro a e; simp [attemptLoop]
  | succ n ih =>
    intro a e
    cases hs : isSuccessOutcome (env a) with
    | true =>
      cases henv : env a with
      | http st dur body =>
        rw [henv] at hs
        simp only [isSuccessOutcome, decide_eq_true_eq] at hs
        rw [attemptLoop_succ_of_success env a n e st dur body henv hs]
        omega
      | timeout => rw [henv] at hs; simp [isSuccessOutcome] at hs
      | requestError msg => rw [henv] at hs; simp [isSuccessOutcome] at hs
      | otherError msg => rw [henv] at hs; simp [isSuccessOutcome] at hs
    | false =>
      rw [attemptLoop_succ_of_fail env a n e hs]
      have := ih (a + 1) (some (outcomeError (env a)))
      omega

theorem attemptLoop_success_fields (env : Nat → AttemptOutcome) :
    ∀ r a e, (attemptLoop env a r e).1.status = .success →
      (∃ st, (attemptLoop env a r e).1.httpStatus = some st ∧
        200 ≤ st ∧ st < 300) ∧
      (attemptLoop env a r e).1.durationMs ≠ none := by
  intro r
  induction r with
  | zero => intro a e h; simp [attemptLoop] at h
  | succ n ih =>
    intro a e h
    cases hs : isSuccessOutcome (env a) with
    | true =>
      cases henv : env a with
      | http st dur body =>
        rw [henv] at hs
        simp only [isSuccessOutcome, decide_eq_true_eq] at hs
        rw [attemptLoop_succ_of_success env a n e st dur body henv hs]
        exact ⟨⟨st, rfl, hs⟩, by simp⟩
      | timeout => rw [henv] at hs; simp [isSuccessOutcome] at hs
      | requestError msg => rw [henv] at hs; simp [isSuccessOutcome] at hs
      | otherError msg => rw [henv] at hs; simp [isSuccessOutcome] at hs
    | false =>
      rw [attemptLoop_succ_of_fail env a n e hs] at h ⊢
      exact ih (a + 1) (some (outcomeError (env a))) h

theorem attemptLoop_failed_fields (env : Nat → AttemptOutcome) :
    ∀ r a e, (attemptLoop env a r e).1.status = .failed →
      (attemptLoop env a r e).1.httpStatus = none ∧
      (attemptLoop env a r e).1.durationMs = none := by
  intro r
  induction r with
  | zero => intro a e _; simp [attemptLoop]
  | succ n ih =>
    intro a e h
    cases hs : isSuccessOutcome (env a) with
    | true =>
      cases henv : env a with
      | http st dur body =>
        rw [henv] at hs
        simp only [isSuccessOutcome, decide_eq_true_eq] at hs
        rw [attemptLoop_succ_of_success env a n e st dur body henv hs] at h
        simp at h
      | timeout => rw [henv] at hs; simp [isSuccessOutcome] at hs
      | requestError msg => rw [henv] at hs; simp [isSuccessOutcome] at hs
      | otherError msg => rw [henv] at hs; simp [isSuccessOutcome] at hs
    | false =>
      rw [attemptLoop_succ_of_fail env a n e hs] at h ⊢
      exact ih (a + 1) (some (outcomeError (env a))) h

theorem attemptLoop_failed_error (env : Nat → AttemptOutcome) :
    ∀ r a e, (0 < r ∨ e ≠ none) →
      (attemptLoop env a r e).1.status = .failed →
      (attemptLoop env a r e).1.errorMessage ≠ none := by
  intro r
  induction r with
  | zero =>
    intro a e hre _
    have he : e ≠ none := by
      rcases hre with h0 | he
      · omega
      · exact he
    simpa [attemptLoop] using he
  | succ n ih =>
    intro a e _ h
    cases hs : isSuccessOutcome (env a) with
    | true =>
      cases henv : env a with
      | http st dur body =>
        rw [henv] at hs
        simp only [isSuccessOutcome, decide_eq_true_eq] at hs
        rw [attemptLoop_succ_of_success env a n e st dur body henv hs] at h
        simp at h
      | timeout => rw [henv] at hs; simp [isSuccessOutcome] at hs
      | requestError msg => rw [henv] at hs; simp [isSuccessOutcome] at hs
      | otherError msg => rw [henv] at hs; simp [isSuccessOutcome] at hs
    | false =>
      rw [attemptLoop_succ_of_fail env a n e hs] at h ⊢
      exact ih (a + 1) (some (outcomeError (env a))) (Or.inr (by simp)) h

theorem attemptLoop_first_success (env : Nat → AttemptOutcome) :
    ∀ r a e k, a ≤ k → k < a + r →
      isSuccessOutcome (env k) = true →
      (∀ j, a ≤ j → j < k → isSuccessOutcome (env j) = false) →
      (attemptLoop env a r e).2 = k - a + 1 ∧
      (attemptLoop env a r e).1.status = .success := by
  intro r
  induction r with
  | zero => intro a e k h1 h2 _ _; omega
  | succ n ih =>
    intro a e k h1 h2 hk hmin
    by_cases hak : a = k
    · subst hak
      cases henv : env a with
      | http st dur body =>
        rw [henv] at hk
        simp only [isSuccessOutcome, decide_eq_true_eq] at hk
        rw [attemptLoop_succ_of_success env a n e st dur body henv hk]
        simp
      | timeout => rw [henv] at hk; simp [isSuccessOutcome] at hk
      | requestError msg => rw [henv] at hk; simp [isSuccessOutcome] at hk
      | otherError msg => rw [henv] at hk; simp [isSuccessOutcome] at hk
    · have hfa : isSuccessOutcome (env a) = false :=
        hmin a le_rfl (by omega)
      rw [attemptLoop_succ_of_fail env a n e hfa]
      have hrec := ih (a + 1) (some (outcomeError (env a))) k (by omega)
        (by omega) hk (fun j hj1 hj2 => hmin j (by omega) hj2)
      refine ⟨?_, hrec.2⟩
      have := hrec.1
      omega

/-- C2 counterexample: a receiver answering 500 on all attempts yields a
FAILED row whose http_status is null, not 500 — `_execute_job` always
writes `http_status=None` on the failure path, contradicting the claim
that the final non-2xx status is recorded. -/
theorem C2_failed_http_status_counterexample :
    (execute_job env500 3).1.status = .failed ∧
    (execute_job env500 3).1.httpStatus = none ∧
    ¬ (execute_job env500 3).1.httpStatus = some 500 := by
  decide

/-- C2 (amended): whenever a firing terminates with status FAILED, the
recorded Execution row has a non-null error_message, and its http_status
is always null — even when the final attempt returned a non-2xx HTTP
response. -/
theorem C2_failed_record_fields (env : Nat → AttemptOutcome)
    (maxRetries : Nat)
    (h : (execute_job env maxRetries).1.status = .failed) :
    (execute_job env maxRetries).1.errorMessage ≠ none ∧
    (execute_job env maxRetries).1.httpStatus = none := by
  refine ⟨?_, ?_⟩
  · exact attemptLoop_failed_error env (maxRetries + 1) 1 none
      (Or.inl (Nat.succ_pos _)) h
  · exact (attemptLoop_failed_fields env (maxRetries + 1) 1 none h).1

/-- C2 witness: the amended claim evaluated on the all-500 receiver with
the default max_retries = 3. -/
theorem C2_failed_record_fields_witness :
    (execute_job env500 3).1.errorMessage ≠ none ∧
    (execute_job env500 3).1.httpStatus = none :=
  C2_failed_record_fields env500 3 (by decide)

/-- C3: no Execution row is written with status SUCCESS and an HTTP
status outside the interval from 200 inclusive to 300 exclusive, and
every SUCCESS row has a non-null duration_ms. -/
theorem C3_success_record_invariant (env : Nat → AttemptOutcome)
    (maxRetries : Nat)
    (h : (execute_job env maxRetries).1.status = .success) :
    (∃ st, (execute_job env maxRetries).1.httpStatus = some st ∧
      200 ≤ st ∧ st < 300) ∧
    (execute_job env maxRetries).1.durationMs ≠ none :=
  attemptLoop_success_fields env (maxRetries + 1) 1 none h

/-- C3 witness: the invariant evaluated on the all-200 receiver with the
default max_retries = 3. -/
theorem C3_success_record_invariant_witness :
    (∃ st, (execute_job env200 3).1.httpStatus = some st ∧
      200 ≤ st ∧ st < 300) ∧
    (execute_job env200 3).1.durationMs ≠ none :=
  C3_success_record_invariant env200 3 (by decide)

/-- C4: the retry loop performs at most max_retries + 1 outbound POSTs,
and if the first 2xx response arrives at attempt k within the budget,
the loop stops there: exactly k POSTs are made and the firing succeeds. -/
theorem C4_bounded_retry (env : Nat → AttemptOutcome) (maxRetries : Nat) :
    (execute_job env maxRetries).2 ≤ maxRetries + 1 ∧
    (∀ k, 1 ≤ k → k ≤ maxRetries + 1 →
      isSuccessOutcome (env k) = true →
      (∀ j, 1 ≤ j → j < k → isSuccessOutcome (env j) = false) →
      (execute_job env maxRetries).2 = k ∧
      (execute_job env maxRetries).1.status = .success) := by
  constructor
  · exact attemptLoop_count_le env (maxRetries + 1) 1 none
  · intro k hk1 hk2 hk hmin
    have h := attemptLoop_first_success env (maxRetries + 1) 1 none k hk1
      (by omega) hk hmin
    refine ⟨?_, h.2⟩
    show (attemptLoop env 1 (maxRetries + 1) none).2 = k
    omega

/-- C4 witness: with the default max_retries = 3 and a receiver that
fails once then succeeds, the loop makes at most 4 POSTs and stops at
the second one. -/
theorem C4_bounded_retry_witness :
    (execute_job envFlaky 3).2 ≤ 4 ∧ (execute_job envFlaky 3).2 = 2 := by
  have h := C4_bounded_retry envFlaky 3
  refine ⟨h.1, ?_⟩
  have h2 := h.2 2 (by decide) (by decide) (by decide)
    (fun j hj1 hj2 => by
      have : j = 1 := by omega
      subst this
      decide)
  exact h2.1

/-! ## Dispatch core heap entries: ScheduledJob (app/scheduler/scheduler.py)

`next_run` datetimes are embedded as Nat instants (seconds). -/

/-- A job with its next scheduled time, as held in the scheduler's
priority queue (`ScheduledJob` in `app/scheduler/scheduler.py`). -/
structure ScheduledJob where
  job_id : String
  next_run : Nat
  schedule : String
  api_url : String
deriving DecidableEq, Repr

/-- ScheduledJob.__lt__: comparison for heap ordering, which is
`self.next_run < other.next_run` — `next_run` alone, no tiebreaker. -/
def ScheduledJob.lt (a b : ScheduledJob) : Bool :=
  decide (a.next_run < b.next_run)

/-- C7 counterexample: two distinct entries with equal next_run and
lexicographically distinct job_ids compare as neither less than the
other — `ScheduledJob.__lt__` breaks no ties by job_id and the order is
not total on distinct entries. -/
theorem C7_lt_not_total_counterexample :
    (ScheduledJob.mk "a" 5 "* * * * * *" "http://r/ok") ≠
      (ScheduledJob.mk "b" 5 "* * * * * *" "http://r/ok") ∧
    ScheduledJob.lt (ScheduledJob.mk "a" 5 "* * * * * *" "http://r/ok")
      (ScheduledJob.mk "b" 5 "* * * * * *" "http://r/ok") = false ∧
    ScheduledJob.lt (ScheduledJob.mk "b" 5 "* * * * * *" "http://r/ok")
      (ScheduledJob.mk "a" 5 "* * * * * *" "http://r/ok") = false := by
  refine ⟨?_, by decide, by decide⟩
  intro h
  simpa using congrArg ScheduledJob.job_id h

/-- C7 (amended): in-heap entries are ordered by next_run ascending
only; there is no job_id tiebreaker, so the order is total exactly on
entries with distinct next_run: for those, exactly one of a < b, b < a
holds, while entries sharing a next_run are mutually incomparable. -/
theorem C7_lt_total_on_distinct_next_run (a b : ScheduledJob)
    (h : a.next_run ≠ b.next_run) :
    (ScheduledJob.lt a b = true ∧ ScheduledJob.lt b a = false) ∨
    (ScheduledJob.lt a b = false ∧ ScheduledJob.lt b a = true) := by
  simp only [ScheduledJob.lt, decide_eq_true_eq, decide_eq_false_iff_not]
  omega

/-- C7 witness: the amended ordering evaluated on two entries with
next_run 1 and 2. -/
theorem C7_lt_total_on_distinct_next_run_witness :
    (ScheduledJob.lt (ScheduledJob.mk "a" 1 "* * * * * *" "u")
        (ScheduledJob.mk "b" 2 "* * * * * *" "u") = true ∧
      ScheduledJob.lt (ScheduledJob.mk "b" 2 "* * * * * *" "u")
        (ScheduledJob.mk "a" 1 "* * * * * *" "u") = false) ∨
    (ScheduledJob.lt (ScheduledJob.mk "a" 1 "* * * * * *" "u")
        (ScheduledJob.mk "b" 2 "* * * * * *" "u") = false ∧
      ScheduledJob.lt (ScheduledJob.mk "b" 2 "* * * * * *" "u")
        (ScheduledJob.mk "a" 1 "* * * * * *" "u") = true) :=
  C7_lt_total_on_distinct_next_run _ _ (by decide)

/-! ## Execution core submission: WorkerPool.submit_job

The ThreadPoolExecutor backing the pool keeps an unbounded pending-work
queue; `submit` raises only after `shutdown` and otherwise appends. -/

/-- A firing descriptor as handed to `WorkerPool.submit_job`. -/
structure Firing where
  jobId : String
  apiUrl : String
  scheduledTime : Nat
deriving DecidableEq, Repr

/-- State of the ThreadPoolExecutor behind the worker pool: its pending
work queue (unbounded in CPython) and whether shutdown was initiated. -/
structure PoolState where
  queue : List Firing
  isShutdown : Bool
deriving DecidableEq, Repr

/-- WorkerPool.submit_job: `self.executor.submit(self._execute_job, …)`.
`ThreadPoolExecutor.submit` raises RuntimeError after shutdown and
otherwise appends the work item to its unbounded queue, whatever the
queue's current length. -/
def submit_job (p : PoolState) (f : Firing) : Except String PoolState :=
  if p.isShutdown then .error "cannot schedule new futures after shutdown"
  else .ok { p with queue := p.queue ++ [f] }

/-- A concrete firing used for the C8 scenario. -/
def firing0 : Firing :=
  { jobId := "j", apiUrl := "http://r/ok", scheduledTime := 0 }

/-- A pool whose queue already holds 4 × W = 80 pending firings for the
default W = 20 — full according to the claimed bound. -/
def poolAtClaimedBound : PoolState :=
  { queue := List.replicate 80 firing0, isShutdown := false }

/-- C8 counterexample: with the queue already at the claimed bound of
4 × W = 80 entries, submit_job still enqueues the firing — the queue
grows to 81 and nothing is dropped, so no finite bound with
drop-on-full exists. -/
theorem C8_unbounded_queue_counterexample :
    submit_job poolAtClaimedBound firing0 =
      .ok { queue := List.replicate 80 firing0 ++ [firing0],
            isShutdown := false } ∧
    (List.replicate 80 firing0 ++ [firing0]).length = 81 := by
  constructor
  · rfl
  · simp

/-- C8 (amended): submit_job never blocks the dispatcher, but the
pending queue is unbounded: unless the pool is shut down, every
submitted firing is appended to the queue — whatever its length — and
none is ever dropped. -/
theorem C8_submit_always_enqueues (p : PoolState) (f : Firing)
    (h : p.isShutdown = false) :
    submit_job p f = .ok { p with queue := p.queue ++ [f] } ∧
    ∀ q, submit_job p f = .ok q → q.queue.length = p.queue.length + 1 := by
  constructor
  · simp [submit_job, h]
  · intro q hq
    simp [submit_job, h] at hq
    subst hq
    simp

/-- C8 witness: the amended submission contract evaluated on the pool
whose queue already holds 80 firings. -/
theorem C8_submit_always_enqueues_witness :
    submit_job poolAtClaimedBound firing0 =
      .ok { poolAtClaimedBound with
            queue := poolAtClaimedBound.queue ++ [firing0] } ∧
    ∀ q, submit_job poolAtClaimedBound firing0 = .ok q →
      q.queue.length = poolAtClaimedBound.queue.length + 1 :=
  C8_submit_always_enqueues poolAtClaimedBound firing0 rfl

/-! ## Execution recording: WorkerPool._record_execution

The durable write is one `db.add` + `db.commit` inside a try/except
whose handler only logs; there is no second attempt and no re-raise. -/

/-- State of the execution store as `_record_execution` sees it: the
committed rows, and whether the next transaction will fail. -/
structure DbState where
  failNext : Bool
  rows : List ExecutionRecord
deriving DecidableEq, Repr

/-- One transactional insert (`db.add` followed by `db.commit`). -/
def dbInsert (db : DbState) (r : ExecutionRecord) : Except String DbState :=
  if db.failNext then .error "transaction failed"
  else .ok { db with rows := db.rows ++ [r] }

/-- WorkerPool._record_execution: a single insert attempt inside
try/except; on exception the error is logged and the record dropped.
Returns the resulting store state and the number of insert attempts
made; the function always returns normally. -/
def record_execution (db : DbState) (r : ExecutionRecord) :
    DbState × Nat :=
  match dbInsert db r with
  | .ok db2 => (db2, 1)
  | .error _ => (db, 1)

/-- A store whose next transaction fails. -/
def dbFailing : DbState := { failNext := true, rows := [] }

/-- A record used in the C9 scenario. -/
def record0 : ExecutionRecord :=
  { status := .success, httpStatus := some 200, durationMs := some 5,
    errorMessage := none }

/-- C9 counterexample: when the transactional write fails,
_record_execution makes exactly one insert attempt — not the two that
"retries the write exactly once" would require — and the row is
dropped. -/
theorem C9_no_retry_counterexample :
    (record_execution dbFailing record0).2 = 1 ∧
    ¬ (record_execution dbFailing record0).2 = 2 ∧
    (record_execution dbFailing record0).1.rows = [] := by
  decide

/-- C9 (amended): the recording call site makes exactly one insert
attempt per record; on store failure the error is logged and the row
dropped with the store unchanged, and the worker never propagates the
exception (record_execution is total and always returns). -/
theorem C9_record_single_attempt (db : DbState) (r : ExecutionRecord) :
    (record_execution db r).2 = 1 ∧
    ((record_execution db r).1 = db ∨
      (record_execution db r).1.rows = db.rows ++ [r]) := by
  cases hf : db.failNext with
  | true => simp [record_execution, dbInsert, hf]
  | false => simp [record_execution, dbInsert, hf]

/-! ## Stats service: ExecutionService.get_execution_stats
(app/services/execution_service.py)

Timestamps are embedded as exact rationals (seconds); duration_ms is
the stored integer column. Python's `int(avg) if avg else None` treats
an average of exactly zero like missing data, which the embedding keeps
as an explicit zero test. The response's job_id echo and the
float-rounded success_rate field are not modelled; no claim concerns
them. -/

/-- One JobExecution row as the stats query returns it: the columns
`get_execution_stats` reads. -/
structure ExecRow where
  status : String
  duration_ms : Option Int
  scheduled_time : Option ℚ
  actual_start_time : Option ℚ
deriving DecidableEq, Repr

/-- The aggregated statistics dictionary (minus the unmodelled echo
fields). -/
structure ExecutionStats where
  total_executions : Nat
  success_count : Nat
  failure_count : Nat
  avg_duration_ms : Option Int
  avg_drift_ms : Option Int
deriving DecidableEq, Repr

/-- Python's `int()` on a real value: truncation toward zero. -/
def intTrunc (q : ℚ) : Int := if 0 ≤ q then ⌊q⌋ else ⌈q⌉

/-- The `durations` list: duration_ms of every execution where it is
non-null (`[e.duration_ms for e in executions if e.duration_ms is not
None]`). -/
def durationList (execs : List ExecRow) : List Int :=
  execs.filterMap (fun e => e.duration_ms)

/-- The `drifts` list: `(actual_start_time − scheduled_time) * 1000`
for every execution where both timestamps are present. -/
def driftList (execs : List ExecRow) : List ℚ :=
  execs.filterMap (fun e =>
    match e.scheduled_time, e.actual_start_time with
    | some s, some a => some ((a - s) * 1000)
    | _, _ => none)

/-- ExecutionService.get_execution_stats on the job's execution rows:
counts, then `int(avg_duration) if avg_duration else None` and
`int(avg_drift) if avg_drift else None`, where a zero average is falsy
exactly like a missing one. -/
def get_execution_stats (execs : List ExecRow) : ExecutionStats :=
  if execs = [] then
    { total_executions := 0, success_count := 0, failure_count := 0,
      avg_duration_ms := none, avg_drift_ms := none }
  else
    let total := execs.length
    let success := (execs.filter (fun e => e.status == "SUCCESS")).length
    let durations := durationList execs
    let avgDuration : Option ℚ :=
      if durations = [] then none
      else some ((durations.map (fun d => (d : ℚ))).sum / durations.length)
    let drifts := driftList execs
    let avgDrift : Option ℚ :=
      if drifts = [] then none
      else some (drifts.sum / drifts.length)
    { total_executions := total
      success_count := success
      failure_count := total - success
      avg_duration_ms :=
        match avgDuration with
        | none => none
        | some q => if q = 0 then none else some (intTrunc q)
      avg_drift_ms :=
        match avgDrift with
        | none => none
        | some q => if q = 0 then none else some (intTrunc q) }

/-- C10: two independent guarantees — if there are recorded durations
and their mean is exactly 0, avg_duration_ms comes back as None rather
than 0; and likewise, whenever there are drift samples and their mean
is exactly 0, avg_drift_ms comes back as None — a zero average is
treated the same as having no data, each field on its own. -/
theorem C10_zero_average_reported_as_none (execs : List ExecRow) :
    (durationList execs ≠ [] →
      ((durationList execs).map (fun d => (d : ℚ))).sum /
        (durationList execs).length = 0 →
      (get_execution_stats execs).avg_duration_ms = none) ∧
    (driftList execs ≠ [] →
      (driftList execs).sum / (driftList execs).length = 0 →
      (get_execution_stats execs).avg_drift_ms = none) := by
  constructor
  · intro hd hdz
    have hne : execs ≠ [] := by
      intro h
      subst h
      exact hd rfl
    rw [get_execution_stats, if_neg hne]
    simp only [if_neg hd, hdz, if_pos rfl]
    rfl
  · intro hr hrz
    have hne : execs ≠ [] := by
      intro h
      subst h
      exact hr rfl
    rw [get_execution_stats, if_neg hne]
    simp only [if_neg hr, hrz, if_pos rfl]
    rfl

/-- A row whose duration is 0 ms and whose drift is 0 (the worker
started exactly on schedule). -/
def zeroRow : ExecRow :=
  { status := "SUCCESS", duration_ms := some 0,
    scheduled_time := some 0, actual_start_time := some 0 }

/-- C10 witness: one execution with duration 0 and drift 0 makes both
averages come back as None, each conditional applied on its own. -/
theorem C10_zero_average_reported_as_none_witness :
    (get_execution_stats [zeroRow]).avg_duration_ms = none ∧
    (get_execution_stats [zeroRow]).avg_drift_ms = none :=
  ⟨(C10_zero_average_reported_as_none [zeroRow]).1 (by decide)
      (by
        have h1 : durationList [zeroRow] = [(0 : Int)] := rfl
        rw [h1]
        norm_num),
    (C10_zero_average_reported_as_none [zeroRow]).2 (by decide)
      (by
        have h2 : driftList [zeroRow] = [((0 : ℚ) - 0) * 1000] := rfl
        rw [h2]
        norm_num)⟩

/-! ## CRON evaluator (app/scheduler/cron_utils.py)

`validate_cron` and `get_next_run_time` delegate expression acceptance
and next-instant computation to the croniter dependency, whose source
is not part of this repository. Modelled from the spec: croniter's
6-field grammar `<sec> <min> <hour> <dom> <mon> <dow>` with the forms
`*`, a literal, `a-b`, `a-b/n`, `*/n` and comma-separated unions;
domains second 0-59, minute 0-59, hour 0-23, day-of-month 1-31, month
1-12, day-of-week 0-6 (Sunday = 0); the either-match rule when both day
fields are restricted; and next = the smallest instant strictly greater
than the base, searching from the next whole second. Instants are
seconds since the Unix epoch (1970-01-01 was a Thursday, weekday 4);
Python strings are embedded as their character lists. -/

/-- Split a character list at every separator matched by `p`, keeping
empty chunks (the behaviour of Python's `str.split(sep)`). -/
def splitBy (p : Char → Bool) : List Char → List (List Char)
  | [] => [[]]
  | x :: xs =>
    let r := splitBy p xs
    if p x then [] :: r
    else
      match r with
      | [] => [[x]]
      | h :: t => (x :: h) :: t

/-- Python's `str.strip().split()`: split on whitespace runs and drop
empty chunks. -/
def wsFields (l : List Char) : List (List Char) :=
  (splitBy (fun c => c.isWhitespace) l).filter (fun w => w ≠ [])

/-- Parse a non-empty all-digit chunk as a decimal number. -/
def natOfChars (l : List Char) : Option Nat :=
  if l ≠ [] ∧ l.all (fun c => c.isDigit) then
    some (l.foldl (fun acc c => acc * 10 + (c.toNat - 48)) 0)
  else none

/-- The values from a to b inclusive. -/
def rangeVals (a b : Nat) : List Nat := List.range' a (b - a + 1)

/-- Modelled from the spec: the base of one field atom — `*`, a literal
within the field's domain, or `a-b` with lo ≤ a ≤ b ≤ hi — as the pair
of its endpoints. -/
def parseRangePart (lo hi : Nat) (s : List Char) : Option (Nat × Nat) :=
  if s = ['*'] then some (lo, hi)
  else
    match splitBy (fun c => c = '-') s with
    | [x] => do
        let n ← natOfChars x
        if lo ≤ n ∧ n ≤ hi then some (n, n) else none
    | [x, y] => do
        let a ← natOfChars x
        let b ← natOfChars y
        if lo ≤ a ∧ a ≤ b ∧ b ≤ hi then some (a, b) else none
    | _ => none

/-- Modelled from the spec: one comma-separated atom of a field —
`*`, a literal, `a-b`, `a-b/n` or `*/n` (steps only on `*` or on a
range, with a non-zero step) — as the set of values it matches. -/
def parseAtom (lo hi : Nat) (s : List Char) : Option (List Nat) :=
  match splitBy (fun c => c = '/') s with
  | [base] => (parseRangePart lo hi base).map (fun p => rangeVals p.1 p.2)
  | [base, stepStr] => do
      let step ← natOfChars stepStr
      if step = 0 then none
      else if base = ['*'] ∨ (splitBy (fun c => c = '-') base).length = 2 then do
        let p ← parseRangePart lo hi base
        some ((rangeVals p.1 p.2).filter (fun v => (v - p.1) % step = 0))
      else none
  | _ => none

/-- Modelled from the spec: a whole field — a comma-separated union of
atoms — as the set of values it matches within the domain lo..hi. -/
def parseField (lo hi : Nat) (s : List Char) : Option (List Nat) :=
  ((splitBy (fun c => c = ',') s).mapM (parseAtom lo hi)).map List.flatten

/-- A parsed 6-field CRON expression: the matching value set of each
field, plus whether the two day fields were written as a bare `*`
(needed for the conventional either-match rule). -/
structure CronExpr where
  seconds : List Nat
  minutes : List Nat
  hours : List Nat
  dom : List Nat
  mon : List Nat
  dow : List Nat
  domStar : Bool
  dowStar : Bool
deriving DecidableEq, Repr

/-- Modelled from the spec: croniter's acceptance of a 6-field
expression, fields in the order second, minute, hour, day-of-month,
month, day-of-week with domains 0-59, 0-59, 0-23, 1-31, 1-12, 0-6. -/
def parse_expression (s : String) : Option CronExpr :=
  match wsFields s.data with
  | [se, mi, ho, dm, mo, dw] => do
      let fs ← parseField 0 59 se
      let fm ← parseField 0 59 mi
      let fh ← parseField 0 23 ho
      let fd ← parseField 1 31 dm
      let fmo ← parseField 1 12 mo
      let fw ← parseField 0 6 dw
      some { seconds := fs, minutes := fm, hours := fh, dom := fd,
             mon := fmo, dow := fw, domStar := dm = ['*'], dowStar := dw = ['*'] }
  | _ => none

/-- CronUtils.validate_cron: the expression must split into exactly six
parts and construct a croniter instance (here: parse under the modelled
grammar). -/
def validate_cron (s : String) : Bool := (parse_expression s).isSome

/-- Convert a day count since 1970-01-01 to (year, month, day) in the
proleptic Gregorian calendar (standard civil-from-days algorithm). -/
def civilFromDays (z0 : Int) : Int × Nat × Nat :=
  let z := z0 + 719468
  let era : Int := (if 0 ≤ z then z else z - 146096) / 146097
  let doe : Nat := (z - era * 146097).toNat
  let yoe : Nat := (doe - doe / 1460 + doe / 36524 - doe / 146096) / 365
  let doy : Nat := doe - (365 * yoe + yoe / 4 - yoe / 100)
  let mp : Nat := (5 * doy + 2) / 153
  let d : Nat := doy - (153 * mp + 2) / 5 + 1
  let m : Nat := if mp < 10 then mp + 3 else mp - 9
  (era * 400 + (yoe : Int) + (if m ≤ 2 then 1 else 0), m, d)

/-- Modelled from the spec: whether instant t (epoch seconds) matches
all six fields, with the conventional either-match rule when both day
fields are restricted. -/
def cronMatches (c : CronExpr) (t : Nat) : Bool :=
  let days : Nat := t / 86400
  let fs := t % 60
  let fm := (t / 60) % 60
  let fh := (t / 3600) % 24
  let md := (civilFromDays (days : Int)).2
  let w := (days + 4) % 7
  c.seconds.contains fs && c.minutes.contains fm && c.hours.contains fh &&
  c.mon.contains md.1 &&
  (if !c.domStar && !c.dowStar then c.dom.contains md.2 || c.dow.contains w
   else c.dom.contains md.2 && c.dow.contains w)

/-- Search budget for the next matching instant, like croniter's bound
of several years before it raises: five years of seconds. -/
def searchFuel : Nat := 158112000

/-- Linear search for the first matching instant at or after t. -/
def searchNext (c : CronExpr) : Nat → Nat → Option Nat
  | 0, _ => none
  | fuel + 1, t => if cronMatches c t then some t else searchNext c fuel (t + 1)

/-- Modelled from the spec: croniter's get_next — the smallest matching
instant strictly greater than the base (the search starts at the next
whole second after the base). -/
def cronNext (c : CronExpr) (base : Nat) : Option Nat :=
  searchNext c searchFuel (base + 1)

/-- CronUtils.get_next_run_time: raise ValueError when validation
fails, otherwise return croniter's next instant (none in the model, an
exception in the source, when the bounded search finds no match). -/
def get_next_run_time (s : String) (base : Nat) : Except String Nat :=
  match parse_expression s with
  | none => Except.error ("Invalid CRON expression: " ++ s)
  | some c =>
    match cronNext c base with
    | some r => Except.ok r
    | none => Except.error "Error calculating next run time"

theorem searchNext_ge (c : CronExpr) :
    ∀ fuel t r, searchNext c fuel t = some r → t ≤ r := by
  intro fuel
  induction fuel with
  | zero => intro t r h; simp [searchNext] at h
  | succ n ih =>
    intro t r h
    rw [searchNext] at h
    by_cases hm : cronMatches c t = true
    · rw [if_pos hm] at h
      exact le_of_eq (Option.some_injective _ h)
    · rw [if_neg hm] at h
      have := ih (t + 1) r h
      omega

theorem cronNext_gt (c : CronExpr) (base r : Nat)
    (h : cronNext c base = some r) : base < r := by
  have := searchNext_ge c searchFuel (base + 1) r h
  omega

set_option maxHeartbeats 2000000 in
/-- C1: validate_cron returns true exactly when the expression has six
whitespace-separated fields and each parses within its domain in the
order second (0-59), minute (0-59), hour (0-23), day-of-month (1-31),
month (1-12), day-of-week (0-6). -/
theorem C1_validate_iff_six_fields_parse (s : String) :
    validate_cron s = true ↔
    ∃ se mi ho dm mo dw, wsFields s.data = [se, mi, ho, dm, mo, dw] ∧
      (parseField 0 59 se).isSome ∧ (parseField 0 59 mi).isSome ∧
      (parseField 0 23 ho).isSome ∧ (parseField 1 31 dm).isSome ∧
      (parseField 1 12 mo).isSome ∧ (parseField 0 6 dw).isSome := by
  unfold validate_cron parse_expression
  cases h : wsFields s.data with
  | nil => simp
  | cons a t1 =>
    cases t1 with
    | nil => simp
    | cons b t2 =>
      cases t2 with
      | nil => simp
      | cons c t3 =>
        cases t3 with
        | nil => simp
        | cons d t4 =>
          cases t4 with
          | nil => simp
          | cons e t5 =>
            cases t5 with
            | nil => simp
            | cons f t6 =>
              cases t6 with
              | cons g t7 => simp
              | nil =>
                rcases h1 : parseField 0 59 a with _ | fs
                all_goals rcases h2 : parseField 0 59 b with _ | fm
                all_goals rcases h3 : parseField 0 23 c with _ | fh
                all_goals rcases h4 : parseField 1 31 d with _ | fd
                all_goals rcases h5 : parseField 1 12 e with _ | fmo
                all_goals rcases h6 : parseField 0 6 f with _ | fw
                all_goals simp [h1, h2, h3, h4, h5, h6]
                all_goals first
                | exact ⟨a, b, c, d, e, f, ⟨rfl, rfl, rfl, rfl, rfl, rfl⟩,
                    by simp [h1], by simp [h2], by simp [h3],
                    by simp [h4], by simp [h5], by simp [h6]⟩
                | (intros; subst_vars; simp_all)

/-- C1 witness: the every-5-minutes expression from the source comments
validates, via the six-field characterisation. -/
theorem C1_validate_iff_six_fields_parse_witness :
    validate_cron "0 */5 * * * *" = true :=
  (C1_validate_iff_six_fields_parse "0 */5 * * * *").mpr
    ⟨"0".data, "*/5".data, "*".data, "*".data, "*".data, "*".data,
      by decide, by decide, by decide, by decide, by decide, by decide,
      by decide⟩

/-- C5: whenever get_next_run_time returns an instant, that instant is
strictly greater than the base — next never returns the base itself. -/
theorem C5_next_strictly_greater (s : String) (base r : Nat)
    (h : get_next_run_time s base = .ok r) : base < r := by
  unfold get_next_run_time at h
  cases hp : parse_expression s with
  | none => rw [hp] at h; simp at h
  | some c =>
    rw [hp] at h
    have h2 : (match cronNext c base with
        | some r3 => Except.ok r3
        | none =>
          (Except.error "Error calculating next run time" :
            Except String Nat)) = Except.ok r := h
    cases hn : cronNext c base with
    | none => rw [hn] at h2; simp at h2
    | some r2 =>
      rw [hn] at h2
      simp only [Except.ok.injEq] at h2
      subst h2
      exact cronNext_gt c base r2 hn

/-- C5 witness: the all-star expression at base 0 fires next at instant
1, strictly after the base. -/
theorem C5_next_strictly_greater_witness :
    get_next_run_time "* * * * * *" 0 = .ok 1 ∧ 0 < 1 :=
  ⟨rfl, C5_next_strictly_greater "* * * * * *" 0 1 rfl⟩

/-- The all-star expression `* * * * * *` as a parsed CronExpr. -/
def starCron : CronExpr :=
  { seconds := rangeVals 0 59, minutes := rangeVals 0 59,
    hours := rangeVals 0 23, dom := rangeVals 1 31, mon := rangeVals 1 12,
    dow := rangeVals 0 6, domStar := true, dowStar := true }

theorem starCron_parses : parse_expression "* * * * * *" = some starCron := by
  decide

/-- The minutely expression `0 * * * * *` (fire at second 0 of every
minute) as a parsed CronExpr. -/
def minutelyCron : CronExpr :=
  { seconds := [0], minutes := rangeVals 0 59,
    hours := rangeVals 0 23, dom := rangeVals 1 31, mon := rangeVals 1 12,
    dow := rangeVals 0 6, domStar := true, dowStar := true }

theorem minutelyCron_parses :
    parse_expression "0 * * * * *" = some minutelyCron := by
  decide

/-! ## Dispatch core loop: Scheduler.run (app/scheduler/scheduler.py)

For one job with parsed schedule c, the dispatch loop together with the
concurrently callable refresh_schedule is a transition system over the
wall clock, the multiset of this job's heap entries, the loop's
position inside its current iteration, and the scheduled_time values of
the firings handed to the worker pool, in issue order. The heap lock
covers only the individual peek, pop, clear-and-rebuild and push
operations; the loop releases it in between, so a reconciliation
(run from the API thread via refresh_schedule) can interleave between
any two steps. One loop iteration decomposes as: `peek` the minimal
entry (line 108), `sample` now = datetime.now() (line 110), the due
test of the peeked entry against the sampled now followed by `checkPop`
of the then-minimal entry — which, after an interleaved reconciliation,
need not be the peeked one and is submitted with its own next_run,
untested against now (lines 113-125) — and `repush` of the instant
computed from the sampled, by then possibly stale, now (lines 129-137).
`popFail` is the pop finding the heap empty (the IndexError is
swallowed by the loop's outer except and the iteration abandoned);
`skipNotDue` is the not-due else branch; `refreshActive` and
`refreshDrop` are a reconciliation recomputing the job's single entry
from the clock at that moment, or dropping it (job deactivated, or its
next instant no longer computable). The allowRefresh flag says whether
reconciliations may interleave with the run. -/

/-- Where the dispatch loop stands inside its current iteration. -/
inductive DispatchPhase where
  | idle
  | peeked (p : Nat)
  | sampled (p now0 : Nat)
  | inflight (now0 : Nat)
deriving DecidableEq, Repr

/-- Abstract state of the dispatch loop restricted to one job. -/
structure SchedState where
  clock : Nat
  entries : List Nat
  phase : DispatchPhase
  dispatched : List Nat
deriving DecidableEq, Repr

/-- One transition of the dispatch loop, or of a concurrent
reconciliation, for a job with schedule c. -/
inductive SchedStep (c : CronExpr) (allowRefresh : Bool) :
    SchedState → SchedState → Prop where
  | tick (s : SchedState) (d : Nat) :
      SchedStep c allowRefresh s { s with clock := s.clock + d }
  | peek (s : SchedState) (p : Nat) (hph : s.phase = DispatchPhase.idle)
      (hmem : p ∈ s.entries) (hmin : ∀ e ∈ s.entries, p ≤ e) :
      SchedStep c allowRefresh s { s with phase := DispatchPhase.peeked p }
  | sample (s : SchedState) (p : Nat)
      (hph : s.phase = DispatchPhase.peeked p) :
      SchedStep c allowRefresh s
        { s with phase := DispatchPhase.sampled p s.clock }
  | checkPop (s : SchedState) (p now0 n : Nat)
      (hph : s.phase = DispatchPhase.sampled p now0) (hdue : p ≤ now0)
      (hmem : n ∈ s.entries) (hmin : ∀ e ∈ s.entries, n ≤ e) :
      SchedStep c allowRefresh s
        { clock := s.clock, entries := s.entries.erase n,
          phase := DispatchPhase.inflight now0,
          dispatched := s.dispatched ++ [n] }
  | popFail (s : SchedState) (p now0 : Nat)
      (hph : s.phase = DispatchPhase.sampled p now0) (hdue : p ≤ now0)
      (hemp : s.entries = []) :
      SchedStep c allowRefresh s { s with phase := DispatchPhase.idle }
  | skipNotDue (s : SchedState) (p now0 : Nat)
      (hph : s.phase = DispatchPhase.sampled p now0) (hnot : ¬ p ≤ now0) :
      SchedStep c allowRefresh s { s with phase := DispatchPhase.idle }
  | repush (s : SchedState) (now0 : Nat)
      (hph : s.phase = DispatchPhase.inflight now0) :
      SchedStep c allowRefresh s
        { s with
          phase := DispatchPhase.idle,
          entries := s.entries ++ (cronNext c now0).toList }
  | refreshActive (s : SchedState) (hra : allowRefresh = true) :
      SchedStep c allowRefresh s
        { s with entries := (cronNext c s.clock).toList }
  | refreshDrop (s : SchedState) (hra : allowRefresh = true) :
      SchedStep c allowRefresh s { s with entries := [] }

/-- Reachability along a run of the dispatch loop. -/
inductive SchedReaches (c : CronExpr) (allowRefresh : Bool) :
    SchedState → SchedState → Prop where
  | refl (s : SchedState) : SchedReaches c allowRefresh s s
  | step (s1 s2 s3 : SchedState) : SchedReaches c allowRefresh s1 s2 →
      SchedStep c allowRefresh s2 s3 → SchedReaches c allowRefresh s1 s3

/-- The state the loop starts from: the startup reconciliation has
inserted the job's single entry, computed from the start clock. -/
def initSched (c : CronExpr) (t0 : Nat) : SchedState :=
  { clock := t0, entries := (cronNext c t0).toList,
    phase := DispatchPhase.idle, dispatched := [] }

/-- The phase-dependent part of the refresh-free invariant: a peeked or
sampled value is still in the heap; while a dispatch is between its pop
and its re-push, the heap is empty and the sampled now bounds every
dispatched time. -/
def PhaseInv (s : SchedState) : Prop :=
  match s.phase with
  | .idle => True
  | .peeked p => p ∈ s.entries
  | .sampled p _ => p ∈ s.entries
  | .inflight now0 => s.entries = [] ∧ ∀ x ∈ s.dispatched, x ≤ now0

/-- Inductive invariant of refresh-free runs: dispatched times are
strictly increasing, the job has at most one heap entry, every entry
lies strictly after every dispatched time, plus the phase-dependent
facts. -/
def SchedInv (s : SchedState) : Prop :=
  List.Pairwise (· < ·) s.dispatched ∧
  s.entries.length ≤ 1 ∧
  (∀ e ∈ s.entries, ∀ x ∈ s.dispatched, x < e) ∧
  PhaseInv s

theorem eq_singleton_of_length_le_one {l : List Nat} {a : Nat}
    (hlen : l.length ≤ 1) (ha : a ∈ l) : l = [a] := by
  cases l with
  | nil => simp at ha
  | cons x t =>
    cases t with
    | nil =>
      rw [List.mem_singleton] at ha
      rw [ha]
    | cons y u => simp at hlen

theorem SchedStep_preserves_inv (c : CronExpr) (s1 s2 : SchedState)
    (hstep : SchedStep c false s1 s2) (hinv : SchedInv s1) :
    SchedInv s2 := by
  obtain ⟨hpw, hlen, hgap, hph1⟩ := hinv
  cases hstep with
  | tick d =>
    exact ⟨hpw, hlen, hgap, hph1⟩
  | peek p hph hmem hmin =>
    refine ⟨hpw, hlen, hgap, ?_⟩
    simp only [PhaseInv]
    exact hmem
  | sample p hph =>
    have hp : p ∈ s1.entries := by
      simp only [PhaseInv, hph] at hph1
      exact hph1
    refine ⟨hpw, hlen, hgap, ?_⟩
    simp only [PhaseInv]
    exact hp
  | checkPop p now0 n hph hdue hmem hmin =>
    have hp : p ∈ s1.entries := by
      simp only [PhaseInv, hph] at hph1
      exact hph1
    have hsing : s1.entries = [n] := eq_singleton_of_length_le_one hlen hmem
    have hpn : p = n := by
      rw [hsing, List.mem_singleton] at hp
      exact hp
    have hxn : ∀ x ∈ s1.dispatched, x < n := fun x hx => hgap n hmem x hx
    have herase : s1.entries.erase n = [] := by
      rw [hsing]
      simp [List.erase_cons]
    refine ⟨?_, ?_, ?_, ?_⟩
    · show List.Pairwise (· < ·) (s1.dispatched ++ [n])
      rw [List.pairwise_append]
      refine ⟨hpw, List.pairwise_singleton _ _, ?_⟩
      intro x hx y hy
      rw [List.mem_singleton] at hy
      have := hxn x hx
      omega
    · show (s1.entries.erase n).length ≤ 1
      rw [herase]
      simp
    · show ∀ e ∈ s1.entries.erase n, ∀ x ∈ s1.dispatched ++ [n], x < e
      rw [herase]
      simp
    · simp only [PhaseInv]
      refine ⟨herase, ?_⟩
      intro x hx
      rcases List.mem_append.mp hx with hx | hx
      · have := hxn x hx
        omega
      · rw [List.mem_singleton] at hx
        omega
  | popFail p now0 hph hdue hemp =>
    exact ⟨hpw, hlen, hgap, by simp [PhaseInv]⟩
  | skipNotDue p now0 hph hnot =>
    exact ⟨hpw, hlen, hgap, by simp [PhaseInv]⟩
  | repush now0 hph =>
    have hifl : s1.entries = [] ∧ ∀ x ∈ s1.dispatched, x ≤ now0 := by
      simp only [PhaseInv, hph] at hph1
      exact hph1
    refine ⟨hpw, ?_, ?_, ?_⟩
    · show (s1.entries ++ (cronNext c now0).toList).length ≤ 1
      rw [hifl.1]
      cases h : cronNext c now0 <;> simp [Option.toList]
    · show ∀ e ∈ s1.entries ++ (cronNext c now0).toList,
        ∀ x ∈ s1.dispatched, x < e
      intro e he x hx
      rcases List.mem_append.mp he with he | he
      · exact hgap e he x hx
      · cases h : cronNext c now0 with
        | none => rw [h] at he; simp [Option.toList] at he
        | some v =>
          rw [h] at he
          simp only [Option.toList, List.mem_singleton] at he
          have hv := cronNext_gt c now0 v h
          have := hifl.2 x hx
          omega
    · simp [PhaseInv]
  | refreshActive hra =>
    simp at hra
  | refreshDrop hra =>
    simp at hra

/-- C6 counterexample: with the minutely schedule `0 * * * * *`, a
reconciliation interleaving between the loop's now-sample and its pop —
reachable because refresh_schedule runs from the API thread and the
heap lock is released between the peek (line 108) and the pop
(line 116) — makes the loop pop and submit the refresh-inserted entry
180 unchecked, then re-push from the stale now = 60 the instant 120,
which is dispatched next: the issued scheduled_time sequence
[180, 120] is not strictly increasing (it even decreases). -/
theorem C6_interleaved_refresh_counterexample :
    SchedReaches minutelyCron true (initSched minutelyCron 0)
      { clock := 120, entries := [],
        phase := DispatchPhase.inflight 120,
        dispatched := [180, 120] } ∧
    ¬ List.Pairwise (· < ·) ([180, 120] : List Nat) := by
  constructor
  · have r0 : SchedReaches minutelyCron true (initSched minutelyCron 0)
        (initSched minutelyCron 0) := SchedReaches.refl _
    have r1 := SchedReaches.step _ _ _ r0 (SchedStep.tick _ 60)
    have r2 := SchedReaches.step _ _ _ r1
      (SchedStep.peek _ 60 rfl (by decide) (by decide))
    have r3 := SchedReaches.step _ _ _ r2 (SchedStep.sample _ 60 rfl)
    have r4 := SchedReaches.step _ _ _ r3 (SchedStep.tick _ 60)
    have r5 := SchedReaches.step _ _ _ r4
      (SchedStep.refreshActive _ rfl)
    have r6 := SchedReaches.step _ _ _ r5
      (SchedStep.checkPop _ 60 60 180 rfl (by decide) (by decide)
        (by decide))
    have r7 := SchedReaches.step _ _ _ r6 (SchedStep.repush _ 60 rfl)
    have r8 := SchedReaches.step _ _ _ r7
      (SchedStep.peek _ 120 rfl (by decide) (by decide))
    have r9 := SchedReaches.step _ _ _ r8 (SchedStep.sample _ 120 rfl)
    have r10 := SchedReaches.step _ _ _ r9
      (SchedStep.checkPop _ 120 120 120 rfl (by decide) (by decide)
        (by decide))
    exact r10
  · decide

/-- C6 (amended): along every refresh-free run of the dispatch loop —
no reconciliation interleaved — the scheduled_time values handed to the
execution core form a strictly increasing sequence. -/
theorem C6_dispatch_times_strictly_increasing (c : CronExpr)
    (t0 : Nat) (s : SchedState)
    (h : SchedReaches c false (initSched c t0) s) :
    List.Pairwise (· < ·) s.dispatched := by
  have hinv : SchedInv s := by
    induction h with
    | refl =>
      refine ⟨List.Pairwise.nil, ?_, by simp [initSched], ?_⟩
      · show (cronNext c t0).toList.length ≤ 1
        cases hc : cronNext c t0 <;> simp [Option.toList]
      · show PhaseInv (initSched c t0)
        simp [PhaseInv, initSched]
    | step s2 s3 hr hstep ih =>
      exact SchedStep_preserves_inv c s2 s3 hstep ih
  exact hinv.1

/-- C6 witness: a concrete refresh-free run with the all-star schedule
dispatches scheduled times 1 then 2, a strictly increasing sequence. -/
theorem C6_dispatch_times_strictly_increasing_witness :
    List.Pairwise (fun a b : Nat => a < b) [1, 2] := by
  have r0 : SchedReaches starCron false (initSched starCron 0)
      (initSched starCron 0) := SchedReaches.refl _
  have r1 := SchedReaches.step _ _ _ r0 (SchedStep.tick _ 1)
  have r2 := SchedReaches.step _ _ _ r1
    (SchedStep.peek _ 1 rfl (by decide) (by decide))
  have r3 := SchedReaches.step _ _ _ r2 (SchedStep.sample _ 1 rfl)
  have r4 := SchedReaches.step _ _ _ r3
    (SchedStep.checkPop _ 1 1 1 rfl (by decide) (by decide) (by decide))
  have r5 := SchedReaches.step _ _ _ r4 (SchedStep.repush _ 1 rfl)
  have r6 := SchedReaches.step _ _ _ r5 (SchedStep.tick _ 1)
  have r7 := SchedReaches.step _ _ _ r6
    (SchedStep.peek _ 2 rfl (by decide) (by decide))
  have r8 := SchedReaches.step _ _ _ r7 (SchedStep.sample _ 2 rfl)
  have r9 := SchedReaches.step _ _ _ r8
    (SchedStep.checkPop _ 2 2 2 rfl (by decide) (by decide) (by decide))
  have h := C6_dispatch_times_strictly_increasing starCron 0 _ r9
  exact h
